import Mathlib

set_option autoImplicit false

/-! # The paginated, retrying feature-iteration protocol of xyz-spaces-python

The repository's files at hand are its documentation, changelog, notebooks and
build scripts; the client implementation itself (`xyzspaces/apis.py`,
`xyzspaces/spaces.py`) is not among them.  The pagination/retry core is
therefore modelled from the specification's own description of it (spec
sections 2 through 7), and every definition below says which part of the spec
it models.  Wall-clock waiting and authentication are elided: the claims under
study concern attempt counts, request counts, feature order and error
propagation, none of which depend on them. -/

/-- Modelled from the spec (section 3): a GeoJSON Feature record.  Its
geometry, properties and identifier are uninterpreted by the pagination
protocol, so a feature is kept abstract as a payload value. -/
abbrev Feature := Nat

/-- Modelled from the spec (section 3): a continuation handle is an
uninterpreted string that must be round-tripped byte-for-byte. -/
abbrev Handle := String

/-- Modelled from the spec (section 3): a Page is an ordered sequence of
Features plus an optional continuation handle; a Page with no handle marks the
end of a result set. -/
structure Page where
  features : List Feature
  handle : Option Handle
  deriving Repr, DecidableEq

/-- Modelled from the spec (section 7): the client's error taxonomy —
ValidationError, HttpError (status, body), RetryExhausted,
MalformedResponseError. -/
inductive XyzError where
  | validationError
  | httpError (status : Nat) (body : String)
  | retryExhausted
  | malformedResponse
  deriving Repr, DecidableEq

/-- Modelled from the spec (section 4.1): the three classes of response the
Retry Policy distinguishes — success, rate-limiting (with an optional server
wait hint), and any other non-success status carrying its code and body. -/
inductive HttpResponse where
  | success (page : Page)
  | rateLimited (waitHint : Option Int)
  | failure (status : Nat) (body : String)
  deriving Repr, DecidableEq

/-- Modelled from the spec (section 4.1 Retry Policy): the retry loop.
`respond n` is the server's answer to attempt number `n` (counted from 0),
`budget` is how many attempts may still be made and `made` how many have been
made already.  A rate-limiting response consumes one attempt and retries; any
other non-success response fails at once with the status code and body; an
exhausted budget fails with RetryExhausted.  The backoff sleep is elided —
only the attempt count is observable here.  Returns the total number of
attempts made and the outcome. -/
def retryGo (respond : Nat → HttpResponse) : Nat → Nat → Nat × Except XyzError Page
  | 0, made => (made, Except.error XyzError.retryExhausted)
  | budget + 1, made =>
    match respond made with
    | HttpResponse.success p => (made + 1, Except.ok p)
    | HttpResponse.failure s b => (made + 1, Except.error (XyzError.httpError s b))
    | HttpResponse.rateLimited _ => retryGo respond budget (made + 1)

/-- Modelled from the spec (section 4.1): execute one logical request against
`respond`, making at most `maxAttempts` attempts. -/
def execWithRetry (respond : Nat → HttpResponse) (maxAttempts : Nat) :
    Nat × Except XyzError Page :=
  retryGo respond maxAttempts 0

/-- Modelled from the spec (section 4.2 Page Fetcher): one logical page
request.  `srv` stands for the retrying transport delivering a Page for a
given continuation handle; `pageSize` is the caller's page-size limit, taken
as an arbitrary integer so that non-positive inputs are expressible;
`serverMax` is the server-defined maximum page size.  The page-size limit is
validated before any network activity: a request with an invalid limit fails
with ValidationError and zero requests issued.  Returns the number of network
requests issued together with the outcome. -/
def fetchPage (serverMax : Nat) (srv : Option Handle → Except XyzError Page)
    (pageSize : Int) (h : Option Handle) : Nat × Except XyzError Page :=
  if pageSize < 1 ∨ (serverMax : Int) < pageSize then
    (0, Except.error XyzError.validationError)
  else
    (1, srv h)

/-- Outcome of driving the Feature Iterator over a server: the continuation
handles sent (one per request, in request order; `none` stands for the initial
request with no handle), the pages the server returned (in order), the
features yielded to the consumer (in order), and the terminal error if the
traversal failed. -/
structure RunResult where
  requests : List (Option Handle)
  pages : List Page
  features : List Feature
  error : Option XyzError
  deriving Repr, DecidableEq

/-- Modelled from the spec (section 4.3 Feature Iterator): maintain the
current continuation handle (initially absent), repeatedly call the Page
Fetcher, yield each Feature of the returned Page in order, replace the handle
with the one the Page carries; stop when the handle is absent or the running
yielded-count reaches the caller's limit, discarding the remainder of a page a
limit cuts short; any Page Fetcher error ends the traversal there and is
surfaced.  `srv` is the Page Fetcher for one fixed query, `fuel` bounds the
number of requests (standing for the finiteness of any concrete traversal)
and `limit` is the caller's optional item-count limit. -/
def iter_feature (srv : Option Handle → Except XyzError Page) :
    Nat → Option Handle → Option Nat → RunResult
  | 0, _, _ => ⟨[], [], [], none⟩
  | fuel + 1, h, limit =>
    if limit = some 0 then ⟨[], [], [], none⟩
    else
      match srv h with
      | Except.error e => ⟨[h], [], [], some e⟩
      | Except.ok p =>
        match limit with
        | some l =>
          if l ≤ p.features.length then
            ⟨[h], [p], p.features.take l, none⟩
          else
            match p.handle with
            | none => ⟨[h], [p], p.features, none⟩
            | some h2 =>
              let r := iter_feature srv fuel (some h2) (some (l - p.features.length))
              ⟨h :: r.requests, p :: r.pages, p.features ++ r.features, r.error⟩
        | none =>
          match p.handle with
          | none => ⟨[h], [p], p.features, none⟩
          | some h2 =>
            let r := iter_feature srv fuel (some h2) none
            ⟨h :: r.requests, p :: r.pages, p.features ++ r.features, r.error⟩

/-- Modelled from the spec (section 6): `search` produces the traversal of the
lazy feature sequence for one query; the query itself is already folded into
`srv`, and the traversal starts with no continuation handle. -/
def search (srv : Option Handle → Except XyzError Page) (fuel : Nat)
    (limit : Option Nat) : RunResult :=
  iter_feature srv fuel none limit

/-- The number of pages a traversal must fetch to see `L` features, when the
successive pages hold the given feature counts: the index (counted from 1) of
the page that supplies the `L`-th feature. -/
def pagesToReach : List Nat → Nat → Nat
  | _, 0 => 0
  | [], _ + 1 => 0
  | n :: rest, l + 1 => if l + 1 ≤ n then 1 else pagesToReach rest (l + 1 - n) + 1

/-- A three-page demonstration server: pages of 4, 4 and 2 features, chained
by the continuation handles "a" and "b". -/
def demoSrv : Option Handle → Except XyzError Page
  | none => Except.ok ⟨[1, 2, 3, 4], some "a"⟩
  | some "a" => Except.ok ⟨[5, 6, 7, 8], some "b"⟩
  | some "b" => Except.ok ⟨[9, 10], none⟩
  | some _ => Except.error XyzError.malformedResponse

/-- A server whose second page request fails with an HTTP 500 error. -/
def failSrv : Option Handle → Except XyzError Page
  | none => Except.ok ⟨[1, 2, 3], some "p1"⟩
  | some _ => Except.error (XyzError.httpError 500 "boom")

/-- Phase of the pull-based generator behind `search`: a fetch is still
pending for the given continuation handle, or the traversal finished, or it
failed with an error. -/
inductive GenPhase where
  | pending (h : Option Handle)
  | finished
  | failed (e : XyzError)
  deriving Repr, DecidableEq

/-- State of the generator: the not-yet-yielded features of the page
currently being consumed, the phase, and how many page requests have been
issued so far. -/
structure GenState where
  buffer : List Feature
  phase : GenPhase
  fetched : Nat
  deriving Repr, DecidableEq

/-- Modelled from the spec (sections 4.3, 5 and 9): the state the lazy
sequence returned by `search` starts in — empty buffer, the initial fetch
(with no handle) still pending, and zero requests issued: constructing the
iterator performs no request. -/
def initGen : GenState := ⟨[], GenPhase.pending none, 0⟩

/-- Modelled from the spec (sections 4.3 and 5): one pull on the lazy
sequence.  A buffered feature of the page currently being consumed is
yielded directly, with no request; only when the buffer is exhausted and a
fetch is pending does the generator issue the next request.  `fuel` bounds
the number of consecutive requests a single pull can make (empty pages are
skipped). -/
def genNext (srv : Option Handle → Except XyzError Page) :
    Nat → GenState → Option Feature × GenState
  | _, ⟨f :: rest, ph, n⟩ => (some f, ⟨rest, ph, n⟩)
  | _, ⟨[], GenPhase.finished, n⟩ => (none, ⟨[], GenPhase.finished, n⟩)
  | _, ⟨[], GenPhase.failed e, n⟩ => (none, ⟨[], GenPhase.failed e, n⟩)
  | 0, ⟨[], GenPhase.pending h, n⟩ => (none, ⟨[], GenPhase.pending h, n⟩)
  | fuel + 1, ⟨[], GenPhase.pending h, n⟩ =>
    match srv h with
    | Except.error e => (none, ⟨[], GenPhase.failed e, n + 1⟩)
    | Except.ok p =>
      match p.handle with
      | none => genNext srv fuel ⟨p.features, GenPhase.finished, n + 1⟩
      | some h2 => genNext srv fuel ⟨p.features, GenPhase.pending (some h2), n + 1⟩

/-- Modelled from the spec (changelog 0.4.0): remove duplicate features,
keeping the first occurrence of each and preserving their relative order;
`seen` accumulates the features already kept. -/
def dedupAux (seen : List Feature) : List Feature → List Feature
  | [] => []
  | f :: rest =>
    if f ∈ seen then dedupAux seen rest else f :: dedupAux (f :: seen) rest

/-- De-duplication of a feature collection before upload. -/
def dedupFeatures (features : List Feature) : List Feature := dedupAux [] features

/-- Result of `add_features`: the de-duplicated collection actually uploaded,
and the caller's collection as it stands after the call. -/
structure AddResult where
  uploaded : List Feature
  callerFeatures : List Feature
  deriving Repr, DecidableEq

/-- Modelled from the spec (changelog 0.4.0): `add_features` removes
duplicate features from the caller-supplied collection before uploading, and
takes a `mutation` parameter deciding whether that rewriting happens on the
caller's collection itself or on a copy; with `mutation` off the caller's
collection is left unchanged by the call. -/
def add_features (features : List Feature) (mutation : Bool) : AddResult :=
  let up := dedupFeatures features
  ⟨up, if mutation then up else features⟩

lemma retryGo_all_rateLimited (respond : Nat → HttpResponse)
    (hrl : ∀ n, ∃ w, respond n = HttpResponse.rateLimited w) :
    ∀ budget made, retryGo respond budget made
      = (made + budget, Except.error XyzError.retryExhausted) := by
  intro budget
  induction budget with
  | zero => intro made; simp [retryGo]
  | succ b ih =>
    intro made
    obtain ⟨w, hw⟩ := hrl made
    simp only [retryGo, hw, ih (made + 1)]
    congr 1
    omega

/-- C3: for a server that answers every attempt with a rate-limiting response,
the Retry Policy makes exactly the configured maximum number of attempts —
never more, never fewer — and then fails with RetryExhausted, an error
distinguishable from the HttpError raised for other non-success statuses. -/
theorem retry_exhausted_after_max_attempts (respond : Nat → HttpResponse)
    (maxAttempts : Nat)
    (hrl : ∀ n, ∃ w, respond n = HttpResponse.rateLimited w) :
    execWithRetry respond maxAttempts
        = (maxAttempts, Except.error XyzError.retryExhausted)
      ∧ ∀ s b, XyzError.retryExhausted ≠ XyzError.httpError s b := by
  refine ⟨?_, by intro s b h; cases h⟩
  have := retryGo_all_rateLimited respond hrl maxAttempts 0
  simpa [execWithRetry] using this

theorem retry_exhausted_after_max_attempts_witness :
    execWithRetry (fun _ => HttpResponse.rateLimited none) 5
        = (5, Except.error XyzError.retryExhausted)
      ∧ ∀ s b, XyzError.retryExhausted ≠ XyzError.httpError s b :=
  retry_exhausted_after_max_attempts (fun _ => HttpResponse.rateLimited none) 5
    (fun _ => ⟨none, rfl⟩)

/-- C4: a response whose status is neither success nor rate-limiting makes the
Retry Policy fail on the very first attempt, with no retry, and the error it
raises carries the response's status code and body. -/
theorem http_error_fails_immediately (respond : Nat → HttpResponse)
    (maxAttempts status : Nat) (body : String)
    (hmax : 0 < maxAttempts)
    (h0 : respond 0 = HttpResponse.failure status body) :
    execWithRetry respond maxAttempts
      = (1, Except.error (XyzError.httpError status body)) := by
  obtain ⟨m, rfl⟩ : ∃ m, maxAttempts = m + 1 := by
    cases maxAttempts with
    | zero => omega
    | succ m => exact ⟨m, rfl⟩
  simp [execWithRetry, retryGo, h0]

theorem http_error_fails_immediately_witness :
    execWithRetry (fun _ => HttpResponse.failure 404 "not found") 5
      = (1, Except.error (XyzError.httpError 404 "not found")) :=
  http_error_fails_immediately (fun _ => HttpResponse.failure 404 "not found")
    5 404 "not found" (by decide) rfl

/-- C5: a page-size limit that is not a positive integer, or that exceeds the
server-defined maximum, makes the Page Fetcher fail with ValidationError
before any network request: the request count of the call is zero. -/
theorem page_size_validated_before_network (serverMax : Nat)
    (srv : Option Handle → Except XyzError Page) (pageSize : Int)
    (h : Option Handle)
    (hbad : pageSize < 1 ∨ (serverMax : Int) < pageSize) :
    fetchPage serverMax srv pageSize h
      = (0, Except.error XyzError.validationError) := by
  unfold fetchPage
  rw [if_pos hbad]

theorem page_size_validated_before_network_witness :
    fetchPage 100000 (fun _ => Except.ok (Page.mk [] none)) 0 none
      = (0, Except.error XyzError.validationError) :=
  page_size_validated_before_network 100000 (fun _ => Except.ok (Page.mk [] none))
    0 none (Or.inl (by decide))

lemma iter_feature_features_eq_join (srv : Option Handle → Except XyzError Page) :
    ∀ (fuel : Nat) (h : Option Handle),
      (iter_feature srv fuel h none).features
        = ((iter_feature srv fuel h none).pages.map Page.features).flatten := by
  intro fuel
  induction fuel with
  | zero => intro h; simp [iter_feature]
  | succ fuel ih =>
    intro h
    rw [iter_feature]
    simp only [reduceCtorEq, if_false]
    cases hsrv : srv h with
    | error e => simp
    | ok p =>
      cases hph : p.handle with
      | none => simp [hph]
      | some h2 => simp [hph, ih (some h2)]

/-- C1: over any finite traversal, the Feature Iterator yields exactly the
concatenation of the returned pages' feature sequences, in the order the
server returned them within each page and across pages — no feature
reordered, dropped or duplicated. -/
theorem iter_feature_yields_concatenation
    (srv : Option Handle → Except XyzError Page) (fuel : Nat) (h : Option Handle) :
    (iter_feature srv fuel h none).features
      = ((iter_feature srv fuel h none).pages.map Page.features).flatten :=
  iter_feature_features_eq_join srv fuel h

lemma iter_feature_succ_none (srv : Option Handle → Except XyzError Page)
    (fuel : Nat) (h : Option Handle) :
    iter_feature srv (fuel + 1) h none
      = match srv h with
        | Except.error e => ⟨[h], [], [], some e⟩
        | Except.ok p =>
          match p.handle with
          | none => ⟨[h], [p], p.features, none⟩
          | some h2 =>
            let r := iter_feature srv fuel (some h2) none
            ⟨h :: r.requests, p :: r.pages, p.features ++ r.features, r.error⟩ := by
  rw [iter_feature]
  simp

lemma iter_feature_succ_some (srv : Option Handle → Except XyzError Page)
    (fuel : Nat) (h : Option Handle) (l : Nat) :
    iter_feature srv (fuel + 1) h (some (l + 1))
      = match srv h with
        | Except.error e => ⟨[h], [], [], some e⟩
        | Except.ok p =>
          if l + 1 ≤ p.features.length then
            ⟨[h], [p], p.features.take (l + 1), none⟩
          else
            match p.handle with
            | none => ⟨[h], [p], p.features, none⟩
            | some h2 =>
              let r := iter_feature srv fuel (some h2)
                (some (l + 1 - p.features.length))
              ⟨h :: r.requests, p :: r.pages, p.features ++ r.features, r.error⟩ := by
  rw [iter_feature]
  simp

lemma pagesToReach_zero (sizes : List Nat) : pagesToReach sizes 0 = 0 := by
  cases sizes <;> rfl

lemma iter_feature_limit_run (srv : Option Handle → Except XyzError Page) :
    ∀ (fuel : Nat) (h : Option Handle) (L : Nat),
      L ≤ (iter_feature srv fuel h none).features.length →
        (iter_feature srv fuel h (some L)).features
            = (iter_feature srv fuel h none).features.take L
          ∧ (iter_feature srv fuel h (some L)).requests.length
            = pagesToReach ((iter_feature srv fuel h none).pages.map
                (fun p => p.features.length)) L := by
  intro fuel
  induction fuel with
  | zero =>
    intro h L hL
    have hL0 : L = 0 := by simpa [iter_feature] using hL
    subst hL0
    simp [iter_feature, pagesToReach_zero]
  | succ fuel ih =>
    intro h L hL
    match L with
    | 0 =>
      have hlim : iter_feature srv (fuel + 1) h (some 0) = ⟨[], [], [], none⟩ := by
        rw [iter_feature]; simp
      simp [hlim, pagesToReach_zero]
    | l + 1 =>
      cases hsrv : srv h with
      | error e =>
        rw [iter_feature_succ_none, hsrv] at hL
        simp at hL
      | ok p =>
        by_cases hcut : l + 1 ≤ p.features.length
        · cases hph : p.handle with
          | none =>
            rw [iter_feature_succ_some, iter_feature_succ_none, hsrv]
            simp only [hph, if_pos hcut]
            exact ⟨by trivial, by simp [pagesToReach, hcut]⟩
          | some h2 =>
            rw [iter_feature_succ_some, iter_feature_succ_none, hsrv]
            simp only [hph, if_pos hcut]
            constructor
            · rw [List.take_append_eq_append_take, Nat.sub_eq_zero_of_le hcut]
              simp
            · simp [pagesToReach, hcut]
        · cases hph : p.handle with
          | none =>
            rw [iter_feature_succ_none, hsrv] at hL
            simp only [hph] at hL
            exact absurd hL hcut
          | some h2 =>
            rw [iter_feature_succ_none, hsrv] at hL
            simp only [hph, List.length_append] at hL
            have hrec : l + 1 - p.features.length
                ≤ (iter_feature srv fuel (some h2) none).features.length := by
              omega
            obtain ⟨e1, e2⟩ := ih (some h2) (l + 1 - p.features.length) hrec
            rw [iter_feature_succ_some, iter_feature_succ_none, hsrv]
            simp only [hph, if_neg hcut]
            constructor
            · rw [List.take_append_eq_append_take,
                List.take_of_length_le (by omega : p.features.length ≤ l + 1)]
              rw [e1]
            · simp only [List.length_cons, List.map_cons]
              rw [pagesToReach, if_neg hcut, e2]

/-- C2: when the caller supplies an item-count limit `L` no larger than the
total number of available features, the iterator yields exactly the first `L`
features — the remainder of the page that supplied the `L`-th feature is
discarded, not buffered — and issues exactly as many page requests as are
needed to reach the `L`-th feature, none beyond that page. -/
theorem iter_feature_limit_cuts_short (srv : Option Handle → Except XyzError Page)
    (fuel : Nat) (h : Option Handle) (L : Nat)
    (hL : L ≤ (iter_feature srv fuel h none).features.length) :
    (iter_feature srv fuel h (some L)).features
        = (iter_feature srv fuel h none).features.take L
      ∧ (iter_feature srv fuel h (some L)).features.length = L
      ∧ (iter_feature srv fuel h (some L)).requests.length
        = pagesToReach ((iter_feature srv fuel h none).pages.map
            (fun p => p.features.length)) L := by
  obtain ⟨e1, e2⟩ := iter_feature_limit_run srv fuel h L hL
  refine ⟨e1, ?_, e2⟩
  rw [e1, List.length_take]
  omega

theorem iter_feature_limit_cuts_short_witness :
    7 ≤ (iter_feature demoSrv 5 none none).features.length
      ∧ ((iter_feature demoSrv 5 none (some 7)).features
            = (iter_feature demoSrv 5 none none).features.take 7
          ∧ (iter_feature demoSrv 5 none (some 7)).features.length = 7
          ∧ (iter_feature demoSrv 5 none (some 7)).requests.length
            = pagesToReach ((iter_feature demoSrv 5 none none).pages.map
                (fun p => p.features.length)) 7) :=
  ⟨by decide, iter_feature_limit_cuts_short demoSrv 5 none 7 (by decide)⟩

lemma iter_feature_requests_head (srv : Option Handle → Except XyzError Page)
    (fuel : Nat) (h : Option Handle) (limit : Option Nat) :
    (iter_feature srv fuel h limit).requests = []
    ∨ (iter_feature srv fuel h limit).requests.head? = some h := by
  cases fuel with
  | zero => exact Or.inl rfl
  | succ fuel =>
    cases limit with
    | none =>
      refine Or.inr ?_
      rw [iter_feature_succ_none]
      cases hsrv : srv h with
      | error e => rfl
      | ok p =>
        obtain ⟨fs, ph⟩ := p
        cases ph <;> rfl
    | some l =>
      cases l with
      | zero => exact Or.inl (by rw [iter_feature]; simp)
      | succ l =>
        refine Or.inr ?_
        rw [iter_feature_succ_some]
        cases hsrv : srv h with
        | error e => rfl
        | ok p =>
          obtain ⟨fs, ph⟩ := p
          by_cases hcut : l + 1 ≤ fs.length
          · simp only [if_pos hcut]
            rfl
          · simp only [if_neg hcut]
            cases ph <;> rfl

lemma iter_feature_requests_tail (srv : Option Handle → Except XyzError Page) :
    ∀ (fuel : Nat) (h : Option Handle) (limit : Option Nat),
      (iter_feature srv fuel h limit).requests.tail
        = ((iter_feature srv fuel h limit).pages.map Page.handle).take
            (iter_feature srv fuel h limit).requests.tail.length := by
  intro fuel
  induction fuel with
  | zero => intro h limit; simp [iter_feature]
  | succ fuel ih =>
    intro h limit
    have hcont : ∀ (fs : List Feature) (h2 : Handle) (limit2 : Option Nat),
        (h :: (iter_feature srv fuel (some h2) limit2).requests).tail
          = ((Page.mk fs (some h2)
                :: (iter_feature srv fuel (some h2) limit2).pages).map
              Page.handle).take
              (h :: (iter_feature srv fuel (some h2) limit2).requests).tail.length := by
      intro fs h2 limit2
      simp only [List.tail_cons, List.map_cons]
      rcases hreq : (iter_feature srv fuel (some h2) limit2).requests with _ | ⟨a, t⟩
      · simp
      · have hh := iter_feature_requests_head srv fuel (some h2) limit2
        rw [hreq] at hh
        replace hh : a = some h2 := by
          rcases hh with h1 | h2x
          · cases h1
          · simpa using h2x
        subst hh
        have ht := ih (some h2) limit2
        rw [hreq] at ht
        simp only [List.tail_cons] at ht
        simp only [List.length_cons, List.take_succ_cons]
        exact congrArg (List.cons (some h2)) ht
    cases limit with
    | none =>
      rw [iter_feature_succ_none]
      cases hsrv : srv h with
      | error e => simp
      | ok p =>
        obtain ⟨fs, ph⟩ := p
        cases ph with
        | none => simp
        | some h2 => exact hcont fs h2 none
    | some l =>
      cases l with
      | zero => rw [iter_feature]; simp
      | succ l =>
        rw [iter_feature_succ_some]
        cases hsrv : srv h with
        | error e => simp
        | ok p =>
          obtain ⟨fs, ph⟩ := p
          by_cases hcut : l + 1 ≤ fs.length
          · simp only [if_pos hcut]
            simp
          · simp only [if_neg hcut]
            cases ph with
            | none => simp
            | some h2 => exact hcont fs h2 (some (l + 1 - fs.length))

lemma iter_feature_requests_some_prefix (srv : Option Handle → Except XyzError Page) :
    ∀ (fuel : Nat) (h : Option Handle) (limit : Option Nat),
      (iter_feature srv fuel h limit).requests.tail
        = (((iter_feature srv fuel h limit).pages.filterMap Page.handle).take
            (iter_feature srv fuel h limit).requests.tail.length).map Option.some := by
  intro fuel
  induction fuel with
  | zero => intro h limit; simp [iter_feature]
  | succ fuel ih =>
    intro h limit
    have hcont : ∀ (fs : List Feature) (h2 : Handle) (limit2 : Option Nat),
        (h :: (iter_feature srv fuel (some h2) limit2).requests).tail
          = (((Page.mk fs (some h2)
                :: (iter_feature srv fuel (some h2) limit2).pages).filterMap
              Page.handle).take
              (h :: (iter_feature srv fuel (some h2) limit2).requests).tail.length).map
              Option.some := by
      intro fs h2 limit2
      simp only [List.tail_cons, List.filterMap_cons]
      rcases hreq : (iter_feature srv fuel (some h2) limit2).requests with _ | ⟨a, t⟩
      · simp
      · have hh := iter_feature_requests_head srv fuel (some h2) limit2
        rw [hreq] at hh
        replace hh : a = some h2 := by
          rcases hh with h1 | h2x
          · cases h1
          · simpa using h2x
        subst hh
        have ht := ih (some h2) limit2
        rw [hreq] at ht
        simp only [List.tail_cons] at ht
        simp only [List.length_cons, List.take_succ_cons, List.map_cons]
        exact congrArg (List.cons (some h2)) ht
    cases limit with
    | none =>
      rw [iter_feature_succ_none]
      cases hsrv : srv h with
      | error e => simp
      | ok p =>
        obtain ⟨fs, ph⟩ := p
        cases ph with
        | none => simp
        | some h2 => exact hcont fs h2 none
    | some l =>
      cases l with
      | zero => rw [iter_feature]; simp
      | succ l =>
        rw [iter_feature_succ_some]
        cases hsrv : srv h with
        | error e => simp
        | ok p =>
          obtain ⟨fs, ph⟩ := p
          by_cases hcut : l + 1 ≤ fs.length
          · simp only [if_pos hcut]
            simp
          · simp only [if_neg hcut]
            cases ph with
            | none => simp
            | some h2 => exact hcont fs h2 (some (l + 1 - fs.length))

/-- C6: round-trip identity of continuation handles.  Every request after the
first sends, byte-for-byte unchanged, exactly the handle carried by the
corresponding earlier response (the sent-handle list is the matching prefix
of the received-handle list); moreover each such request is the `some` of one
of the string handles the server handed out, taken in order, so when those
string handles are pairwise distinct and the initial request differs from all
of them — which always holds for `search`, whose initial request carries no
handle — no handle is ever sent twice in one traversal. -/
theorem handle_roundtrip_unchanged (srv : Option Handle → Except XyzError Page)
    (fuel : Nat) (h : Option Handle) (limit : Option Nat) :
    (iter_feature srv fuel h limit).requests.tail
        = ((iter_feature srv fuel h limit).pages.map Page.handle).take
            (iter_feature srv fuel h limit).requests.tail.length
      ∧ ((h :: ((iter_feature srv fuel h limit).pages.filterMap Page.handle).map
            Option.some).Nodup →
          (iter_feature srv fuel h limit).requests.Nodup) := by
  refine ⟨iter_feature_requests_tail srv fuel h limit, ?_⟩
  intro hnd
  have htail := iter_feature_requests_some_prefix srv fuel h limit
  rcases hreq : (iter_feature srv fuel h limit).requests with _ | ⟨a, t⟩
  · exact List.nodup_nil
  · have hh := iter_feature_requests_head srv fuel h limit
    rw [hreq] at hh
    replace hh : a = h := by
      rcases hh with h1 | h2x
      · cases h1
      · simpa using h2x
    subst hh
    rw [hreq] at htail
    simp only [List.tail_cons] at htail
    refine List.Nodup.sublist ?_ hnd
    conv_lhs => rw [htail]
    exact List.Sublist.cons₂ a ((List.take_sublist _ _).map Option.some)

theorem handle_roundtrip_unchanged_witness :
    ((none : Option Handle)
        :: ((iter_feature demoSrv 5 none none).pages.filterMap Page.handle).map
            Option.some).Nodup
      ∧ (iter_feature demoSrv 5 none none).requests.Nodup :=
  ⟨by decide, (handle_roundtrip_unchanged demoSrv 5 none none).2 (by decide)⟩

lemma iter_feature_error_run (srv : Option Handle → Except XyzError Page) :
    ∀ (fuel : Nat) (h : Option Handle) (e : XyzError),
      (iter_feature srv fuel h none).error = some e →
        (iter_feature srv fuel h none).requests.length
          = (iter_feature srv fuel h none).pages.length + 1
        ∧ ∃ hk, (iter_feature srv fuel h none).requests.getLast? = some hk
            ∧ srv hk = Except.error e := by
  intro fuel
  induction fuel with
  | zero => intro h e herr; simp [iter_feature] at herr
  | succ fuel ih =>
    intro h e herr
    rw [iter_feature_succ_none] at herr ⊢
    cases hsrv : srv h with
    | error e0 =>
      rw [hsrv] at herr
      replace herr : some e0 = some e := herr
      simp only [Option.some.injEq] at herr
      subst herr
      exact ⟨rfl, h, rfl, hsrv⟩
    | ok p =>
      rw [hsrv] at herr
      obtain ⟨fs, ph⟩ := p
      cases ph with
      | none =>
        replace herr : (none : Option XyzError) = some e := herr
        cases herr
      | some h2 =>
        replace herr : (iter_feature srv fuel (some h2) none).error = some e := herr
        obtain ⟨hlen, hk, hlast, hsrvk⟩ := ih (some h2) e herr
        refine ⟨?_, hk, ?_, hsrvk⟩
        · show (h :: (iter_feature srv fuel (some h2) none).requests).length
            = ((⟨fs, some h2⟩ : Page)
                :: (iter_feature srv fuel (some h2) none).pages).length + 1
          simp only [List.length_cons, hlen]
        · show (h :: (iter_feature srv fuel (some h2) none).requests).getLast?
            = some hk
          rcases hr : (iter_feature srv fuel (some h2) none).requests with _ | ⟨b, t⟩
          · rw [hr] at hlen
            simp at hlen
          · rw [hr] at hlast
            rw [List.getLast?_cons_cons]
            exact hlast

/-- C7: when the Page Fetcher fails during a traversal, the Feature Iterator
surfaces exactly that error, and only after every feature of the pages
fetched before the failure has been yielded in order; the failing request is
the last request issued — no request for any later page is ever made — and
the already-yielded features stand (they are exactly the concatenation of the
successful pages' features). -/
theorem error_surfaces_in_order (srv : Option Handle → Except XyzError Page)
    (fuel : Nat) (h : Option Handle) (e : XyzError)
    (herr : (iter_feature srv fuel h none).error = some e) :
    (iter_feature srv fuel h none).features
        = ((iter_feature srv fuel h none).pages.map Page.features).flatten
      ∧ (iter_feature srv fuel h none).requests.length
        = (iter_feature srv fuel h none).pages.length + 1
      ∧ ∃ hk, (iter_feature srv fuel h none).requests.getLast? = some hk
          ∧ srv hk = Except.error e := by
  obtain ⟨hlen, hex⟩ := iter_feature_error_run srv fuel h e herr
  exact ⟨iter_feature_features_eq_join srv fuel h, hlen, hex⟩

theorem error_surfaces_in_order_witness :
    (iter_feature failSrv 5 none none).error
        = some (XyzError.httpError 500 "boom")
      ∧ ((iter_feature failSrv 5 none none).features
            = ((iter_feature failSrv 5 none none).pages.map Page.features).flatten
          ∧ (iter_feature failSrv 5 none none).requests.length
            = (iter_feature failSrv 5 none none).pages.length + 1
          ∧ ∃ hk, (iter_feature failSrv 5 none none).requests.getLast? = some hk
              ∧ failSrv hk = Except.error (XyzError.httpError 500 "boom")) :=
  ⟨by decide,
    error_surfaces_in_order failSrv 5 none (XyzError.httpError 500 "boom")
      (by decide)⟩

/-- C8: the sequence `search` returns is pull-based and lazy.  Constructing
the iterator issues no request — the initial state's request count is zero —
and a pull made while the page currently being consumed still has buffered
features yields the next feature with no request and no state change beyond
consuming it, so no page beyond the one being consumed is ever pre-fetched
and a caller that stops pulling causes no further requests. -/
theorem search_sequence_is_lazy (srv : Option Handle → Except XyzError Page)
    (fuel : Nat) (f : Feature) (buf : List Feature) (ph : GenPhase) (n : Nat) :
    initGen.fetched = 0
      ∧ genNext srv fuel ⟨f :: buf, ph, n⟩ = (some f, ⟨buf, ph, n⟩) :=
  ⟨rfl, by cases fuel <;> rfl⟩

/-- C9: determinism of the traversal, stated as a two-run property: two
`search` calls with identical arguments against an unchanged backing dataset
(two pointwise-equal servers) produce element-for-element identical feature
sequences and identical page sequences. -/
theorem search_deterministic_two_runs
    (srv1 srv2 : Option Handle → Except XyzError Page)
    (fuel : Nat) (limit : Option Nat)
    (hsame : ∀ q, srv1 q = srv2 q) :
    (search srv1 fuel limit).features = (search srv2 fuel limit).features
      ∧ (search srv1 fuel limit).pages = (search srv2 fuel limit).pages := by
  have hs : srv1 = srv2 := funext hsame
  subst hs
  exact ⟨rfl, rfl⟩

theorem search_deterministic_two_runs_witness :
    (search demoSrv 5 (some 7)).features
        = (search (fun q => demoSrv q) 5 (some 7)).features
      ∧ (search demoSrv 5 (some 7)).pages
        = (search (fun q => demoSrv q) 5 (some 7)).pages :=
  search_deterministic_two_runs demoSrv (fun q => demoSrv q) 5 (some 7)
    (fun _ => rfl)

lemma mem_dedupAux (x : Feature) :
    ∀ (l seen : List Feature), x ∈ dedupAux seen l ↔ x ∈ l ∧ x ∉ seen := by
  intro l
  induction l with
  | nil => intro seen; simp [dedupAux]
  | cons f rest ih =>
    intro seen
    by_cases hf : f ∈ seen
    · simp only [dedupAux, if_pos hf, ih, List.mem_cons]
      constructor
      · rintro ⟨hx, hns⟩
        exact ⟨Or.inr hx, hns⟩
      · rintro ⟨rfl | hx, hns⟩
        · exact absurd hf hns
        · exact ⟨hx, hns⟩
    · simp only [dedupAux, if_neg hf, List.mem_cons, ih]
      constructor
      · rintro (rfl | ⟨hx, hns⟩)
        · exact ⟨Or.inl rfl, hf⟩
        · refine ⟨Or.inr hx, ?_⟩
          intro hxs
          exact hns (Or.inr hxs)
      · rintro ⟨hor, hns⟩
        by_cases hxf : x = f
        · exact Or.inl hxf
        · rcases hor with rfl | hx
          · exact Or.inl rfl
          · refine Or.inr ⟨hx, ?_⟩
            simp [List.mem_cons, hxf, hns]

lemma nodup_dedupAux :
    ∀ (l seen : List Feature), (dedupAux seen l).Nodup := by
  intro l
  induction l with
  | nil => intro seen; simp [dedupAux]
  | cons f rest ih =>
    intro seen
    by_cases hf : f ∈ seen
    · simp only [dedupAux, if_pos hf]
      exact ih seen
    · simp only [dedupAux, if_neg hf]
      refine List.nodup_cons.mpr ⟨?_, ih (f :: seen)⟩
      intro hmem
      rcases (mem_dedupAux f rest (f :: seen)).mp hmem with ⟨_, hns⟩
      exact hns (List.mem_cons_self f seen)

/-- C10: `add_features` uploads the caller's collection with duplicates
removed — the uploaded list has no duplicate and holds exactly the distinct
features of the input — and its `mutation` parameter decides whether the
caller's collection is touched: with mutation disabled, the caller's
collection is unchanged after the call. -/
theorem add_features_dedup_and_mutation (features : List Feature)
    (mutation : Bool) :
    (add_features features false).callerFeatures = features
      ∧ (add_features features mutation).uploaded.Nodup
      ∧ ∀ x, x ∈ (add_features features mutation).uploaded ↔ x ∈ features := by
  refine ⟨rfl, nodup_dedupAux features [], ?_⟩
  intro x
  show x ∈ dedupAux [] features ↔ x ∈ features
  rw [mem_dedupAux]
  simp

lemma pagesToReach_least :
    ∀ (sizes : List Nat) (L : Nat), 1 ≤ L → L ≤ sizes.sum →
      L ≤ (sizes.take (pagesToReach sizes L)).sum
      ∧ ∀ k, k < pagesToReach sizes L → (sizes.take k).sum < L := by
  intro sizes
  induction sizes with
  | nil =>
    intro L h1 hsum
    simp only [List.sum_nil] at hsum
    omega
  | cons n rest ih =>
    intro L h1 hsum
    match L, h1 with
    | l + 1, _ =>
      simp only [pagesToReach]
      by_cases hcut : l + 1 ≤ n
      · rw [if_pos hcut]
        constructor
        · simp only [List.take_succ_cons, List.take_zero, List.sum_cons,
            List.sum_nil]
          omega
        · intro k hk
          have hk0 : k = 0 := by omega
          subst hk0
          simp only [List.take_zero, List.sum_nil]
          omega
      · rw [if_neg hcut]
        have h1' : 1 ≤ l + 1 - n := by omega
        have hsum' : l + 1 - n ≤ rest.sum := by
          simp only [List.sum_cons] at hsum
          omega
        obtain ⟨ha, hb⟩ := ih (l + 1 - n) h1' hsum'
        constructor
        · simp only [List.take_succ_cons, List.sum_cons]
          omega
        · intro k hk
          cases k with
          | zero =>
            simp only [List.take_zero, List.sum_nil]
            omega
          | succ j =>
            have hj : j < pagesToReach rest (l + 1 - n) := by omega
            have := hb j hj
            simp only [List.take_succ_cons, List.sum_cons]
            omega
